import Mathlib

/-!
Shallow embedding of `roughrider.workflow` (file `src/roughrider/workflow/graph.py`)
and verification of the frozen claims about it.

Modelling conventions:
* Python exceptions that escape an operation are values of `PyExc`; an operation
  that can raise returns `Except PyExc _`, or pairs its result with `Option PyExc`
  when it also mutates the entity.
* The host entity (the `item`) is modelled as a record with the
  `__workflow_state__` slot (an optional string; Python `None` is `none`) plus an
  opaque `payload` standing for the rest of the entity's mutable data, so that
  trigger side effects are observable.
* The caller-supplied `**namespace` is an opaque bag of named values, passed
  through unmodified.
* Python dicts are embedded as insertion-ordered association lists: updating an
  existing key keeps the original key object and its position and replaces the
  value; a fresh key is appended at the end.  Keys of `_edges` are `State`
  dataclass instances whose `__eq__`/`__hash__` compare the `identifier` field
  only, which `stateEq` reproduces.
-/

namespace Graph

/-- Embeds Python class `Error(Exception)`: a single named failure with a message. -/
structure WFError where
  message : String
deriving DecidableEq

/-- Embeds Python class `ConstraintsErrors(Exception)`: an ordered collection of
single failures. -/
structure ConstraintsErrors where
  errors : List WFError
deriving DecidableEq

/-- Embeds a Python enum member of a `WorkflowState` enumeration: the underlying
`State` dataclass field `identifier` (the member value) together with the enum
member key `name` (`_name_`), which is what `states[...]` indexes by and what
`set_state` writes onto the entity. -/
structure WorkflowState where
  name : String
  identifier : String
deriving DecidableEq

/-- A Python-level exception escaping an engine operation. -/
inductive PyExc where
  /-- KeyError raised by a dict lookup; carries the offending key, which for the
  state enumeration map is either a string or an already-resolved member. -/
  | keyError (key : String ⊕ WorkflowState)
  /-- LookupError raised by `Transitions.find`; carries the two states of the
  message `No transition from {origin} to {target}`. -/
  | lookupError (origin target : WorkflowState)
  /-- AttributeError raised by the misspelled `errors.extends(...)` call
  (Python lists have `extend`, not `extends`). -/
  | attributeError (msg : String)
  /-- NameError raised by `raise ConstraintsError(*errors)` in `OR.validate`
  (the defined class is `ConstraintsErrors`; the name without the final s is
  unbound). -/
  | nameError (msg : String)
  /-- A `ConstraintsErrors` aggregate raised as an exception (`raise error` in
  `WorkflowItem.set_state`). -/
  | constraintsErrors (es : ConstraintsErrors)
  /-- An arbitrary exception raised by a caller-authored trigger, propagated
  as-is by the engine. -/
  | custom (tag : String)
deriving DecidableEq

/-- The caller-supplied `**namespace`: an opaque bag of named values. -/
abbrev WFNamespace := List (String × String)

/-- The host entity: its `__workflow_state__` slot (string-or-`None`) plus
opaque mutable payload standing for the rest of the entity, so that trigger
side effects are observable. -/
structure WFItem where
  workflow_state : Option String
  payload : List String
deriving DecidableEq

/-- Outcome of one `validate(item, **namespace)` call on a constraint authored
per the constraint interface: return normally, raise a single `Error`, or raise
a `ConstraintsErrors` aggregate directly. -/
inductive VOut where
  | ok
  | fail (e : WFError)
  | failMany (es : ConstraintsErrors)
deriving DecidableEq

/-- Embeds the abstract Python class `Validator`: one `validate` operation over
the item and the namespace. -/
structure Validator where
  validate : WFItem → WFNamespace → VOut

/-- Embeds a Python trigger: any callable taking `(item, **namespace)`, which
may mutate the entity and may raise; it returns the entity state it leaves
behind together with the exception it raised, if any. -/
abbrev Trigger := WFItem → WFNamespace → WFItem × Option PyExc

/-- Loop body of `resolve_validators`: runs each validator in order, appending a
raised `Error` to the running list; a validator raising `ConstraintsErrors`
reaches `errors.extends(exc.errors)`, which raises AttributeError (lists have
no `extends` method), escaping the whole call. -/
def resolveLoop : List Validator → WFItem → WFNamespace → List WFError →
    Except PyExc (List WFError)
  | [], _, _, errors => .ok errors
  | v :: rest, item, ns, errors =>
    match v.validate item ns with
    | .ok => resolveLoop rest item ns errors
    | .fail e => resolveLoop rest item ns (errors ++ [e])
    | .failMany _ => .error (.attributeError "list object has no attribute extends")

/-- Embeds `resolve_validators(validators, item, **namespace)`: checks every
validator, collecting single failures; returns `ConstraintsErrors(*errors)` if
the list is non-empty, else `None` (Python falls off the end). -/
def resolve_validators (validators : List Validator) (item : WFItem)
    (ns : WFNamespace) : Except PyExc (Option ConstraintsErrors) :=
  match resolveLoop validators item ns [] with
  | .error exc => .error exc
  | .ok [] => .ok none
  | .ok errors => .ok (some ⟨errors⟩)

/-- Embeds `OR.validate(self, item, **namespace)` with `self.validators` as the
list argument: returns on the first validator that passes; appends a raised
`Error` and moves on; a raised `ConstraintsErrors` hits the misspelled
`errors.extends` and raises AttributeError; when every validator raised an
`Error`, the final `raise ConstraintsError(*errors)` evaluates the unbound name
`ConstraintsError` and raises NameError. -/
def OR.validate : List Validator → WFItem → WFNamespace → Except PyExc Unit
  | [], _, _ => .error (.nameError "name ConstraintsError is not defined")
  | v :: rest, item, ns =>
    match v.validate item ns with
    | .ok => .ok ()
    | .fail _ => OR.validate rest item ns
    | .failMany _ => .error (.attributeError "list object has no attribute extends")

/-- Embeds the `Action` dataclass: identifier, ordered constraints, ordered
triggers. -/
structure Action where
  identifier : String
  constraints : List Validator
  triggers : List Trigger

/-- Embeds `Action.check_constraints`: `if self.constraints:` (empty list is
falsy, so an empty constraint list returns `None` without evaluation), else
delegates to `resolve_validators`. -/
def Action.check_constraints (a : Action) (item : WFItem) (ns : WFNamespace) :
    Except PyExc (Option ConstraintsErrors) :=
  if a.constraints.isEmpty then .ok none
  else resolve_validators a.constraints item ns

/-- Embeds the `Transition` named tuple `(action, origin, target)`. -/
structure Transition where
  action : Action
  origin : WorkflowState
  target : WorkflowState

/-- Python equality between two `State` dataclass instances used as dict keys:
the generated `__eq__` compares the `identifier` field only (the enum name is
not a dataclass field), and `__hash__` is `hash(self.identifier)`. -/
def stateEq (a b : WorkflowState) : Bool :=
  a.identifier == b.identifier

/-- Python dict `d[k] = v` over state keys: replace the value at the first key
equal to `k` (keeping the stored key and its position), else append. -/
def dinsert {β : Type} (k : WorkflowState) (v : β) :
    List (WorkflowState × β) → List (WorkflowState × β)
  | [] => [(k, v)]
  | (k', v') :: rest =>
    if stateEq k' k then (k', v) :: rest else (k', v') :: dinsert k v rest

/-- Python dict `d[k]` over state keys: the value at the first stored key equal
to `k`, if any. -/
def dget {β : Type} (k : WorkflowState) :
    List (WorkflowState × β) → Option β
  | [] => none
  | (k', v) :: rest => if stateEq k' k then some v else dget k rest

/-- The `_edges` structure of `Transitions`: a dict from origin to a dict from
target to the retained transition. -/
abbrev Edges := List (WorkflowState × List (WorkflowState × Transition))

/-- One step of the `_edges` construction loop in `Transitions.__new__`:
`obj._edges[trn.origin][trn.target] = trn`, where the outer dict is a
`defaultdict(dict)` (a missing origin key starts from an empty inner dict). -/
def addTransition (edges : Edges) (trn : Transition) : Edges :=
  dinsert trn.origin (dinsert trn.target trn ((dget trn.origin edges).getD [])) edges

/-- Embeds `Transitions.__new__`: builds `_edges` by iterating the supplied
transitions in order. -/
def buildEdges (transitions : List Transition) : Edges :=
  transitions.foldl addTransition []

/-- Embeds the lookup `self._edges[origin][target]` of `Transitions.find`: the
`defaultdict` yields an empty inner dict for an unseen origin, whose indexing
then raises KeyError. -/
def findOpt (edges : Edges) (origin target : WorkflowState) : Option Transition :=
  dget target ((dget origin edges).getD [])

/-- Embeds `Transitions.find(origin, target)`: the `_edges` lookup, with a
KeyError converted to `LookupError(No transition from origin to target)`. -/
def Transitions.find (edges : Edges) (origin target : WorkflowState) :
    Except PyExc Transition :=
  match findOpt edges origin target with
  | some trn => .ok trn
  | none => .error (.lookupError origin target)

/-- Loop of `Transitions.available`: for each `(target, trn)` entry of the
inner dict, in insertion order, yield `trn` when
`trn.action.check_constraints(item, **ns) is None`; an exception escaping a
constraint check aborts the whole enumeration (the caller materialises the
generator with `tuple(...)`). -/
def availGo : List (WorkflowState × Transition) → WFItem → WFNamespace →
    Except PyExc (List Transition)
  | [], _, _ => .ok []
  | (_, trn) :: rest, item, ns =>
    match trn.action.check_constraints item ns with
    | .error exc => .error exc
    | .ok none => (availGo rest item ns).map (trn :: ·)
    | .ok (some _) => availGo rest item ns

/-- Embeds `Transitions.available(origin, item, **ns)` as materialised by
`tuple(...)` at its call site. -/
def Transitions.available (edges : Edges) (origin : WorkflowState)
    (item : WFItem) (ns : WFNamespace) : Except PyExc (List Transition) :=
  availGo ((dget origin edges).getD []) item ns

/-- The closed state enumeration owned by a `Workflow` subclass: the ordered
enum members; `_member_map_` maps each member's `name` to the member. -/
structure StatesEnum where
  members : List WorkflowState
deriving DecidableEq

/-- A Python value used to index the state enumeration: a string, or an
already-resolved enum member. -/
inductive PyKey where
  | str (s : String)
  | member (m : WorkflowState)
deriving DecidableEq

/-- Python equality between a stored string key of `_member_map_` and the
lookup key: two strings compare by content; a `State` dataclass instance
against a string returns NotImplemented from both sides, so Python falls back
to identity and the comparison is `False`. -/
def strKeyMatches (stored : String) : PyKey → Bool
  | .str s => stored == s
  | .member _ => false

/-- Embeds `EnumMeta.__getitem__`, i.e. `self.states[key]`: looks the key up in
`_member_map_` (keyed by member names) and raises KeyError when no stored key
equals it. -/
def StatesEnum.getitem (e : StatesEnum) (key : PyKey) : Except PyExc WorkflowState :=
  match e.members.find? (fun m => strKeyMatches m.name key) with
  | some m => .ok m
  | none => .error (.keyError (match key with
      | .str s => .inl s
      | .member m => .inr m))

/-- Embeds the `Workflow` class: the class attributes `states` and
`transitions` together with the instance attribute `default_state`. -/
structure Workflow where
  states : StatesEnum
  transitions : Edges
  default_state : WorkflowState

/-- Embeds `Workflow.__init__(self, default_state)`: resolves the argument via
`self.states[default_state]` (the line carries the comment `idempotent`). -/
def Workflow.init (states : StatesEnum) (transitions : Edges) (default_state : PyKey) :
    Except PyExc Workflow :=
  (states.getitem default_state).map (fun d => ⟨states, transitions, d⟩)

/-- Embeds `Workflow.get_state(name)`: the default state when `name is None`,
else `self.states[name]`. -/
def Workflow.get_state (w : Workflow) (name : Option String) :
    Except PyExc WorkflowState :=
  match name with
  | none => .ok w.default_state
  | some n => w.states.getitem (.str n)

/-- Python truthiness of the `__workflow_state__` slot: `None` and the empty
string are falsy. -/
def truthy : Option String → Bool
  | none => false
  | some s => s ≠ ""

/-- Embeds the `WorkflowItem.state` property: `get_state` on the slot when the
slot is truthy, else `get_state(None)`. -/
def WorkflowItem.state (w : Workflow) (item : WFItem) : Except PyExc WorkflowState :=
  if truthy item.workflow_state then w.get_state item.workflow_state
  else w.get_state none

/-- Embeds `WorkflowItem.get_possible_actions`:
`tuple(self.workflow.transitions.available(self.state, self.item, **ns))`. -/
def WorkflowItem.get_possible_actions (w : Workflow) (item : WFItem)
    (ns : WFNamespace) : Except PyExc (List Transition) :=
  match WorkflowItem.state w item with
  | .error exc => .error exc
  | .ok cur => Transitions.available w.transitions cur item ns

/-- Runs the trigger list of an action in declared order: each trigger receives
the entity state left by its predecessor; a raised exception stops the loop,
leaving the entity as the failing trigger left it. -/
def runTriggers : List Trigger → WFItem → WFNamespace → WFItem × Option PyExc
  | [], item, _ => (item, none)
  | t :: rest, item, ns =>
    match t item ns with
    | (item', none) => runTriggers rest item' ns
    | (item', some exc) => (item', some exc)

/-- Embeds `WorkflowItem.set_state(target_state)`: resolve the target in the
enumeration, find the transition from the current state, check the action's
constraints (raising the aggregate when non-`None`), run the triggers in order,
and only then write `target.name` into the entity's slot.  Returns the entity
state after the call together with the exception raised, if any. -/
def WorkflowItem.set_state (w : Workflow) (item : WFItem) (ns : WFNamespace)
    (target_state : String) : WFItem × Option PyExc :=
  match w.states.getitem (.str target_state) with
  | .error exc => (item, some exc)
  | .ok target =>
    match WorkflowItem.state w item with
    | .error exc => (item, some exc)
    | .ok cur =>
      match Transitions.find w.transitions cur target with
      | .error exc => (item, some exc)
      | .ok trn =>
        match trn.action.check_constraints item ns with
        | .error exc => (item, some exc)
        | .ok (some errs) => (item, some (.constraintsErrors errs))
        | .ok none =>
          match runTriggers trn.action.triggers item ns with
          | (item', some exc) => (item', some exc)
          | (item', none) => ({ item' with workflow_state := some target.name }, none)

/-! Concrete fixtures: a small publication workflow used to exercise the
definitions at concrete inputs. -/

/-- Fixture state with distinct member name and identifier, as in typical
`WorkflowState` subclasses (`draft = 'Draft'`). -/
def stDraft : WorkflowState := ⟨"draft", "Draft"⟩

/-- Fixture state `published = 'Published'`. -/
def stPub : WorkflowState := ⟨"published", "Published"⟩

/-- Fixture state `submitted = 'Submitted'`. -/
def stSub : WorkflowState := ⟨"submitted", "Submitted"⟩

/-- Fixture enumeration holding the three publication states. -/
def pubStates : StatesEnum := ⟨[stDraft, stPub, stSub]⟩

/-- Fixture failure raised by `vFail1`. -/
def err1 : WFError := ⟨"failure one"⟩

/-- Fixture failure, element of the aggregate raised by `vAgg`. -/
def err2 : WFError := ⟨"failure two"⟩

/-- Fixture failure raised by `vFail3`. -/
def err3 : WFError := ⟨"failure three"⟩

/-- Fixture validator that always passes. -/
def vPass : Validator := ⟨fun _ _ => .ok⟩

/-- Fixture validator that always raises the single failure `err1`. -/
def vFail1 : Validator := ⟨fun _ _ => .fail err1⟩

/-- Fixture validator that always raises the single failure `err2`. -/
def vFail2 : Validator := ⟨fun _ _ => .fail err2⟩

/-- Fixture validator that always raises the single failure `err3`. -/
def vFail3 : Validator := ⟨fun _ _ => .fail err3⟩

/-- Fixture validator that raises a `ConstraintsErrors` aggregate directly, as
a validator wrapping a nested combinator would. -/
def vAgg : Validator := ⟨fun _ _ => .failMany ⟨[err1, err2]⟩⟩

/-- Fixture trigger recording its tag in the entity payload. -/
def trigLog (tag : String) : Trigger :=
  fun item _ => ({ item with payload := item.payload ++ [tag] }, none)

/-- Fixture trigger that records its run and then raises an arbitrary
caller-defined exception. -/
def trigBoom : Trigger :=
  fun item _ => ({ item with payload := item.payload ++ ["boom ran"] }, some (.custom "boom"))

/-- Fixture entity with no recorded workflow state and empty payload. -/
def itm0 : WFItem := ⟨none, []⟩

/-- Fixture action whose single constraint always fails. -/
def actFail : Action := ⟨"act_fail", [vFail1], []⟩

/-- Fixture action with no constraints whose two triggers log their tags. -/
def actGo : Action := ⟨"act_go", [], [trigLog "t1", trigLog "t2"]⟩

/-- Fixture action with no constraints whose second trigger raises. -/
def actBoom : Action := ⟨"act_boom", [], [trigLog "t1", trigBoom]⟩

/-- Fixture workflow whose draft-to-published transition is guarded by a
failing constraint. -/
def w1 : Workflow := ⟨pubStates, buildEdges [⟨actFail, stDraft, stPub⟩], stDraft⟩

/-- Fixture workflow whose draft-to-published transition runs a succeeding
trigger and then a failing one. -/
def w2 : Workflow := ⟨pubStates, buildEdges [⟨actBoom, stDraft, stPub⟩], stDraft⟩

/-- Fixture workflow whose draft-to-published transition runs two succeeding
triggers. -/
def w3 : Workflow := ⟨pubStates, buildEdges [⟨actGo, stDraft, stPub⟩], stDraft⟩

/-! Claim theorems. -/

/-- Member returned by an enum string lookup carries the looked-up name:
`_member_map_` is keyed by member names, so a hit on key `s` is a member whose
`name` equals `s`. -/
theorem getitem_str_name (e : StatesEnum) (s : String) (m : WorkflowState)
    (h : e.getitem (.str s) = .ok m) : m.name = s := by
  unfold StatesEnum.getitem at h
  cases hf : e.members.find? (fun m => strKeyMatches m.name (.str s)) with
  | none => rw [hf] at h; cases h
  | some m' =>
    rw [hf] at h
    have hp := List.find?_some hf
    simp only [strKeyMatches] at hp
    cases h
    exact eq_of_beq hp

/-- C1: when the resolved transition's action constraints evaluate to a
non-absent aggregate, `WorkflowItem.set_state` raises exactly that aggregate,
runs no trigger, and leaves the entity (in particular its recorded state
identifier) unchanged. -/
theorem set_state_aborts_on_constraint_failure
    (w : Workflow) (item : WFItem) (ns : WFNamespace) (target_state : String)
    (target cur : WorkflowState) (trn : Transition) (errs : ConstraintsErrors)
    (htgt : w.states.getitem (.str target_state) = .ok target)
    (hcur : WorkflowItem.state w item = .ok cur)
    (hfind : Transitions.find w.transitions cur target = .ok trn)
    (hchk : trn.action.check_constraints item ns = .ok (some errs)) :
    WorkflowItem.set_state w item ns target_state =
      (item, some (.constraintsErrors errs)) := by
  unfold WorkflowItem.set_state
  simp only [htgt, hcur, hfind, hchk]

/-- Witness for C1 on the fixture workflow `w1`. -/
theorem set_state_aborts_on_constraint_failure_witness :
    w1.states.getitem (.str "published") = .ok stPub ∧
    WorkflowItem.state w1 itm0 = .ok stDraft ∧
    Transitions.find w1.transitions stDraft stPub = .ok ⟨actFail, stDraft, stPub⟩ ∧
    Action.check_constraints ⟨"act_fail", [vFail1], []⟩ itm0 [] = .ok (some ⟨[err1]⟩) ∧
    WorkflowItem.set_state w1 itm0 [] "published" =
      (itm0, some (.constraintsErrors ⟨[err1]⟩)) :=
  ⟨rfl, rfl, rfl, rfl,
   set_state_aborts_on_constraint_failure w1 itm0 [] "published" stPub stDraft
     ⟨actFail, stDraft, stPub⟩ ⟨[err1]⟩ rfl rfl rfl rfl⟩

/-- C2: a commit whose action has triggers `[t1, t2]`, where `t1` succeeds and
`t2` raises, leaves the entity exactly as `t2` left it (so `t1`'s side effect
stands), performs no state write of its own, and propagates `t2`'s exception
value unchanged. -/
theorem set_state_propagates_trigger_failure
    (w : Workflow) (item item1 item2 : WFItem) (ns : WFNamespace)
    (target_state : String) (target cur : WorkflowState) (trn : Transition)
    (t1 t2 : Trigger) (exc : PyExc)
    (htgt : w.states.getitem (.str target_state) = .ok target)
    (hcur : WorkflowItem.state w item = .ok cur)
    (hfind : Transitions.find w.transitions cur target = .ok trn)
    (hchk : trn.action.check_constraints item ns = .ok none)
    (htrig : trn.action.triggers = [t1, t2])
    (h1 : t1 item ns = (item1, none))
    (h2 : t2 item1 ns = (item2, some exc))
    (hs1 : item1.workflow_state = item.workflow_state)
    (hs2 : item2.workflow_state = item1.workflow_state) :
    WorkflowItem.set_state w item ns target_state = (item2, some exc) ∧
    item2.workflow_state = item.workflow_state := by
  constructor
  · unfold WorkflowItem.set_state
    simp only [htgt, hcur, hfind, hchk, htrig, runTriggers, h1, h2]
  · rw [hs2, hs1]

/-- Witness for C2 on the fixture workflow `w2`: the first trigger's log entry
is present, the slot is untouched, and the custom exception comes back as-is. -/
theorem set_state_propagates_trigger_failure_witness :
    trigLog "t1" itm0 [] = (⟨none, ["t1"]⟩, none) ∧
    trigBoom ⟨none, ["t1"]⟩ [] = (⟨none, ["t1", "boom ran"]⟩, some (.custom "boom")) ∧
    WorkflowItem.set_state w2 itm0 [] "published" =
      (⟨none, ["t1", "boom ran"]⟩, some (.custom "boom")) ∧
    (⟨none, ["t1", "boom ran"]⟩ : WFItem).workflow_state = itm0.workflow_state :=
  ⟨rfl, rfl,
   (set_state_propagates_trigger_failure w2 itm0 ⟨none, ["t1"]⟩
     ⟨none, ["t1", "boom ran"]⟩ [] "published" stPub stDraft
     ⟨actBoom, stDraft, stPub⟩ (trigLog "t1") trigBoom (.custom "boom")
     rfl rfl rfl rfl rfl rfl rfl rfl rfl).1,
   (set_state_propagates_trigger_failure w2 itm0 ⟨none, ["t1"]⟩
     ⟨none, ["t1", "boom ran"]⟩ [] "published" stPub stDraft
     ⟨actBoom, stDraft, stPub⟩ (trigLog "t1") trigBoom (.custom "boom")
     rfl rfl rfl rfl rfl rfl rfl rfl rfl).2⟩

/-- C3: a successful commit runs the whole trigger list first (in declared
order, via `runTriggers`), and only then writes the target state's identifier
(the member name under which the target is registered in the enumeration,
equal to the `target_state` argument) into the entity's slot. -/
theorem set_state_success_runs_triggers_then_writes
    (w : Workflow) (item item' : WFItem) (ns : WFNamespace)
    (target_state : String) (target cur : WorkflowState) (trn : Transition)
    (htgt : w.states.getitem (.str target_state) = .ok target)
    (hcur : WorkflowItem.state w item = .ok cur)
    (hfind : Transitions.find w.transitions cur target = .ok trn)
    (hchk : trn.action.check_constraints item ns = .ok none)
    (htrig : runTriggers trn.action.triggers item ns = (item', none)) :
    WorkflowItem.set_state w item ns target_state =
      ({ item' with workflow_state := some target.name }, none) ∧
    target.name = target_state := by
  constructor
  · unfold WorkflowItem.set_state
    simp only [htgt, hcur, hfind, hchk, htrig]
  · exact getitem_str_name w.states target_state target htgt

/-- Witness for C3 on the fixture workflow `w3`: both triggers' log entries are
present in order and the slot holds the target's member name `published`. -/
theorem set_state_success_runs_triggers_then_writes_witness :
    runTriggers [trigLog "t1", trigLog "t2"] itm0 [] = (⟨none, ["t1", "t2"]⟩, none) ∧
    WorkflowItem.set_state w3 itm0 [] "published" =
      (⟨some "published", ["t1", "t2"]⟩, none) ∧
    stPub.name = "published" :=
  ⟨rfl,
   (set_state_success_runs_triggers_then_writes w3 itm0 ⟨none, ["t1", "t2"]⟩
     [] "published" stPub stDraft ⟨actGo, stDraft, stPub⟩
     rfl rfl rfl rfl rfl).1,
   (set_state_success_runs_triggers_then_writes w3 itm0 ⟨none, ["t1", "t2"]⟩
     [] "published" stPub stDraft ⟨actGo, stDraft, stPub⟩
     rfl rfl rfl rfl rfl).2⟩

/-- The single failures raised by a validator list at a given item and
namespace, in list order. -/
def singleFailures : List Validator → WFItem → WFNamespace → List WFError
  | [], _, _ => []
  | v :: rest, item, ns =>
    match v.validate item ns with
    | .ok => singleFailures rest item ns
    | .fail e => e :: singleFailures rest item ns
    | .failMany _ => singleFailures rest item ns

/-- Accumulator characterization of the `resolve_validators` loop when no
validator raises an aggregate directly. -/
theorem resolveLoop_spec (vs : List Validator) (item : WFItem) (ns : WFNamespace)
    (h : ∀ v ∈ vs, ∀ es, v.validate item ns ≠ .failMany es) :
    ∀ acc : List WFError,
      resolveLoop vs item ns acc = .ok (acc ++ singleFailures vs item ns) := by
  induction vs with
  | nil => intro acc; simp [resolveLoop, singleFailures]
  | cons v rest ih =>
    intro acc
    have hrest : ∀ u ∈ rest, ∀ es, u.validate item ns ≠ .failMany es :=
      fun u hu => h u (List.mem_cons_of_mem v hu)
    cases hval : v.validate item ns with
    | ok => simp [resolveLoop, singleFailures, hval, ih hrest]
    | fail e => simp [resolveLoop, singleFailures, hval, ih hrest]
    | failMany es => exact absurd hval (h v (List.mem_cons_self v rest) es)

/-- C4: over a constraint list in which every constraint either passes or
raises a single failure, `resolve_validators` evaluates every constraint and
returns the aggregate of exactly the failing constraints' failures in list
order, or `None` when no constraint fails. -/
theorem resolve_validators_spec (vs : List Validator) (item : WFItem)
    (ns : WFNamespace)
    (h : ∀ v ∈ vs, ∀ es, v.validate item ns ≠ .failMany es) :
    resolve_validators vs item ns =
      .ok (if singleFailures vs item ns = [] then none
           else some ⟨singleFailures vs item ns⟩) := by
  unfold resolve_validators
  rw [resolveLoop_spec vs item ns h []]
  cases hs : singleFailures vs item ns with
  | nil => simp
  | cons e rest => simp

/-- Witness for C4 at the list `[fails, passes, fails]` from the claim: the
result is the aggregate of exactly the first and third failures, in order. -/
theorem resolve_validators_spec_witness :
    (∀ v ∈ [vFail1, vPass, vFail3], ∀ es, v.validate itm0 [] ≠ VOut.failMany es) ∧
    resolve_validators [vFail1, vPass, vFail3] itm0 [] = .ok (some ⟨[err1, err3]⟩) := by
  have h : ∀ v ∈ [vFail1, vPass, vFail3], ∀ es, v.validate itm0 [] ≠ VOut.failMany es := by
    intro v hv es hcontra
    rcases List.mem_cons.mp hv with rfl | hv
    · exact nomatch hcontra
    rcases List.mem_cons.mp hv with rfl | hv
    · exact nomatch hcontra
    rcases List.mem_cons.mp hv with rfl | hv
    · exact nomatch hcontra
    · exact absurd hv (List.not_mem_nil v)
  refine ⟨h, ?_⟩
  rw [resolve_validators_spec [vFail1, vPass, vFail3] itm0 [] h]
  rfl

/-- C5 (code bug): `OR.validate` does short-circuit on the first passing
sub-validator, but when every sub-validator raises a single failure the final
`raise ConstraintsError(*errors)` line evaluates an unbound name, so the call
raises NameError instead of the aggregated `ConstraintsErrors`. -/
theorem or_validate_all_fail_raises_name_error :
    OR.validate [vFail1, vPass] itm0 [] = .ok () ∧
    OR.validate [vFail1, vFail2] itm0 [] =
      .error (.nameError "name ConstraintsError is not defined") :=
  ⟨rfl, rfl⟩

/-- C9 (code bug): a constraint raising a `ConstraintsErrors` aggregate
directly makes `resolve_validators` hit the misspelled `errors.extends`, so
the whole call raises AttributeError instead of flattening the aggregate's
elements into the running failure list. -/
theorem resolve_validators_aggregate_raises_attribute_error :
    resolve_validators [vFail1, vAgg, vFail3] itm0 [] =
      .error (.attributeError "list object has no attribute extends") := rfl

/-- Empty transition list fixture for the C10 construction theorem. -/
def edges10 : Edges := buildEdges []

/-- C10 (code bug): `Workflow.__init__` resolves the default with
`self.states[default_state]`, whose `_member_map_` is keyed by member name
strings; an already-resolved member is never equal to a string key, so passing
a member raises KeyError, while passing the member's name succeeds — the
resolution is not idempotent despite the `idempotent` comment on that line. -/
theorem workflow_init_member_default_raises_key_error :
    Workflow.init pubStates edges10 (.str "draft") =
      .ok ⟨pubStates, edges10, stDraft⟩ ∧
    Workflow.init pubStates edges10 (.member stDraft) =
      .error (.keyError (.inr stDraft)) :=
  ⟨rfl, rfl⟩

/-- C8 counterexample: `get_state` does not map the empty identifier to the
default state; `self.states[name]` is evaluated for any non-`None` name, and
the empty string is not a member name, so KeyError is raised instead. -/
theorem get_state_empty_not_default :
    Workflow.get_state w1 (some "") ≠ .ok w1.default_state :=
  fun h => Except.noConfusion
    (show Except.error (PyExc.keyError (.inl "")) = Except.ok stDraft from h)

/-- C8 (amended): `get_state` resolves a present identifier through the state
enumeration and returns the default state only for an absent (`None`)
identifier; the empty string is mapped to the default one level up, by the
truthiness test in the `WorkflowItem.state` property, so an entity whose
recorded slot is absent or empty still has the default as its current state. -/
theorem state_absent_or_empty_is_default (w : Workflow) (item : WFItem)
    (h : item.workflow_state = none ∨ item.workflow_state = some "") :
    WorkflowItem.state w item = .ok w.default_state ∧
    w.get_state none = .ok w.default_state ∧
    ∀ n : String, w.get_state (some n) = w.states.getitem (.str n) := by
  refine ⟨?_, rfl, fun n => rfl⟩
  rcases h with h | h <;>
    simp [WorkflowItem.state, truthy, h, Workflow.get_state]

/-- Witness for amended C8 at an entity whose slot holds the empty string. -/
theorem state_absent_or_empty_is_default_witness :
    ((⟨some "", []⟩ : WFItem).workflow_state = none ∨
      (⟨some "", []⟩ : WFItem).workflow_state = some "") ∧
    WorkflowItem.state w1 ⟨some "", []⟩ = .ok w1.default_state :=
  ⟨Or.inr rfl, (state_absent_or_empty_is_default w1 ⟨some "", []⟩ (Or.inr rfl)).1⟩

/-! Dictionary lemmas for the `_edges` characterizations. -/

/-- Looking a key up right after a store: the stored value is found under any
key equal (in the `State` dataclass sense) to the stored one, and other keys
are unaffected. -/
theorem dget_dinsert {β : Type} (k k' : WorkflowState) (v : β)
    (l : List (WorkflowState × β)) :
    dget k' (dinsert k v l) =
      if stateEq k k' then some v else dget k' l := by
  induction l with
  | nil => by_cases h : stateEq k k' = true <;> simp [dinsert, dget, h]
  | cons hd tl ih =>
    obtain ⟨a, w⟩ := hd
    by_cases h1 : a.identifier = k.identifier
    · by_cases h2 : k.identifier = k'.identifier
      · have ha : a.identifier = k'.identifier := h1.trans h2
        simp [dinsert, dget, stateEq, h1, h2, ha]
      · have ha : ¬a.identifier = k'.identifier := fun hh => h2 (h1.symm.trans hh)
        simp [dinsert, dget, stateEq, h1, h2, ha]
    · by_cases h2 : a.identifier = k'.identifier
      · have hk : ¬k.identifier = k'.identifier := fun hh => h1 (h2.trans hh.symm)
        have hk2 : ¬k'.identifier = k.identifier := fun hh => hk hh.symm
        simp [dinsert, dget, stateEq, h1, h2, hk, hk2]
      · simp [dinsert, dget, stateEq, h1, h2, ih]

/-- Lookups through equal keys agree. -/
theorem dget_congr {β : Type} (k k' : WorkflowState)
    (h : k.identifier = k'.identifier) (l : List (WorkflowState × β)) :
    dget k l = dget k' l := by
  induction l with
  | nil => rfl
  | cons hd tl ih =>
    obtain ⟨a, w⟩ := hd
    simp [dget, stateEq, h, ih]

/-- The last transition of the construction sequence matching a given
(origin, target) pair under the engine's state equality, if any. -/
def lastMatch (ts : List Transition) (o t : WorkflowState) : Option Transition :=
  match ts with
  | [] => none
  | trn :: rest =>
    match lastMatch rest o t with
    | some u => some u
    | none =>
      if stateEq trn.origin o && stateEq trn.target t then some trn else none

/-- Accumulator characterization of the `_edges` lookup after the construction
fold: the transitions supplied override the accumulator, last one per
(origin, target) pair winning. -/
theorem findOpt_foldl (o t : WorkflowState) :
    ∀ (ts : List Transition) (acc : Edges),
      findOpt (ts.foldl addTransition acc) o t =
        match lastMatch ts o t with
        | some trn => some trn
        | none => findOpt acc o t := by
  intro ts
  induction ts with
  | nil => intro acc; rfl
  | cons trn rest ih =>
    intro acc
    rw [List.foldl_cons, ih]
    have hstep : findOpt (addTransition acc trn) o t =
        if stateEq trn.origin o && stateEq trn.target t then some trn
        else findOpt acc o t := by
      unfold findOpt addTransition
      rw [dget_dinsert]
      by_cases ho : stateEq trn.origin o = true
      · have hid : trn.origin.identifier = o.identifier := by
          have := ho
          simpa [stateEq] using this
        rw [dget_congr trn.origin o hid acc]
        simp only [ho, if_true, Option.getD_some, Bool.true_and]
        rw [dget_dinsert]
      · simp only [ho, if_false, Bool.false_and]
        have : stateEq trn.origin o = false := by
          cases hb : stateEq trn.origin o with
          | true => exact absurd hb ho
          | false => rfl
        simp [this]
    cases hlm : lastMatch rest o t with
    | some u => simp [lastMatch, hlm]
    | none =>
      simp only [lastMatch, hlm]
      rw [hstep]
      by_cases hc : (stateEq trn.origin o && stateEq trn.target t) = true
      · simp [hc]
      · simp [hc]

/-- C6: `Transitions.find(origin, target)` returns exactly the last transition
supplied for that (origin, target) pair during construction — duplicates are
silently overwritten — and raises `LookupError` (not a constraint failure) for
any pair with no supplied transition. -/
theorem find_returns_last_supplied (ts : List Transition) (o t : WorkflowState) :
    Transitions.find (buildEdges ts) o t =
      match lastMatch ts o t with
      | some trn => .ok trn
      | none => .error (.lookupError o t) := by
  unfold Transitions.find buildEdges
  rw [findOpt_foldl o t ts []]
  cases lastMatch ts o t <;> rfl

/-- The Python test `trn.action.check_constraints(item, **ns) is None` as a
boolean: true exactly when the check returns normally with no aggregate. -/
def checkPasses (a : Action) (item : WFItem) (ns : WFNamespace) : Bool :=
  match a.check_constraints item ns with
  | .ok none => true
  | _ => false

/-- Storing under a key equal to no stored key appends at the end of the
insertion order. -/
theorem dinsert_fresh {β : Type} (k : WorkflowState) (v : β)
    (l : List (WorkflowState × β)) (h : ∀ kv ∈ l, stateEq kv.1 k = false) :
    dinsert k v l = l ++ [(k, v)] := by
  induction l with
  | nil => rfl
  | cons hd tl ih =>
    obtain ⟨a, w⟩ := hd
    have ha : stateEq a k = false := h (a, w) (List.mem_cons_self _ _)
    have htl : ∀ kv ∈ tl, stateEq kv.1 k = false :=
      fun kv hkv => h kv (List.mem_cons_of_mem _ hkv)
    simp [dinsert, ha, ih htl]

/-- Accumulator characterization of the inner dict under an origin after the
construction fold: when the supplied transitions under that origin have
pairwise distinct targets, fresh with respect to the accumulator, they are
appended in supply order, keyed by target. -/
theorem inner_foldl (o : WorkflowState) :
    ∀ (ts : List Transition) (acc : Edges),
      (ts.filter fun trn => stateEq trn.origin o).Pairwise
        (fun t1 t2 => stateEq t1.target t2.target = false) →
      (∀ kv ∈ (dget o acc).getD [],
        ∀ trn ∈ ts.filter fun trn => stateEq trn.origin o,
          stateEq kv.1 trn.target = false) →
      (dget o (ts.foldl addTransition acc)).getD [] =
        (dget o acc).getD [] ++
          (ts.filter fun trn => stateEq trn.origin o).map
            (fun trn => (trn.target, trn)) := by
  intro ts
  induction ts with
  | nil => intro acc _ _; simp
  | cons trn rest ih =>
    intro acc hdist hfresh
    rw [List.foldl_cons]
    by_cases ho : stateEq trn.origin o = true
    · have hid : trn.origin.identifier = o.identifier := by simpa [stateEq] using ho
      have hfilter : (trn :: rest).filter (fun trn => stateEq trn.origin o) =
          trn :: rest.filter (fun trn => stateEq trn.origin o) := by
        simp [List.filter_cons, ho]
      have hmemfresh : ∀ kv ∈ (dget o acc).getD [], stateEq kv.1 trn.target = false := by
        intro kv hkv
        exact hfresh kv hkv trn (by rw [hfilter]; exact List.mem_cons_self _ _)
      have hinner : (dget o (addTransition acc trn)).getD [] =
          (dget o acc).getD [] ++ [(trn.target, trn)] := by
        unfold addTransition
        rw [dget_dinsert]
        simp only [ho, if_true, Option.getD_some]
        rw [dget_congr trn.origin o hid acc]
        exact dinsert_fresh trn.target trn _ hmemfresh
      rw [hfilter] at hdist
      have hdist' : (rest.filter fun trn => stateEq trn.origin o).Pairwise
          (fun t1 t2 => stateEq t1.target t2.target = false) :=
        (List.pairwise_cons.mp hdist).2
      have hhead : ∀ u ∈ rest.filter fun trn => stateEq trn.origin o,
          stateEq trn.target u.target = false :=
        (List.pairwise_cons.mp hdist).1
      have hfresh' : ∀ kv ∈ (dget o (addTransition acc trn)).getD [],
          ∀ u ∈ rest.filter fun trn => stateEq trn.origin o,
            stateEq kv.1 u.target = false := by
        intro kv hkv u hu
        rw [hinner] at hkv
        rcases List.mem_append.mp hkv with hkv | hkv
        · exact hfresh kv hkv u (by rw [hfilter]; exact List.mem_cons_of_mem _ hu)
        · have : kv = (trn.target, trn) := List.mem_singleton.mp hkv
          rw [this]
          exact hhead u hu
      rw [ih (addTransition acc trn) hdist' hfresh', hinner, hfilter]
      simp
    · have ho' : stateEq trn.origin o = false := by
        cases hb : stateEq trn.origin o with
        | true => exact absurd hb ho
        | false => rfl
      have hfilter : (trn :: rest).filter (fun trn => stateEq trn.origin o) =
          rest.filter (fun trn => stateEq trn.origin o) := by
        simp [List.filter_cons, ho']
      have hacc : dget o (addTransition acc trn) = dget o acc := by
        unfold addTransition
        rw [dget_dinsert]
        simp [ho']
      rw [hfilter] at hdist
      have hfresh' : ∀ kv ∈ (dget o (addTransition acc trn)).getD [],
          ∀ u ∈ rest.filter fun trn => stateEq trn.origin o,
            stateEq kv.1 u.target = false := by
        intro kv hkv u hu
        rw [hacc] at hkv
        exact hfresh kv hkv u (by rw [hfilter]; exact hu)
      rw [ih (addTransition acc trn) hdist hfresh', hacc, hfilter]

/-- The `available` loop keeps exactly the entries whose action constraints
evaluate to `None`, in entry order, provided no constraint check raises. -/
theorem availGo_spec (item : WFItem) (ns : WFNamespace) :
    ∀ l : List (WorkflowState × Transition),
      (∀ kv ∈ l, ∀ exc, kv.2.action.check_constraints item ns ≠ .error exc) →
      availGo l item ns =
        .ok ((l.map Prod.snd).filter
          (fun trn => checkPasses trn.action item ns)) := by
  intro l
  induction l with
  | nil => intro _; rfl
  | cons hd tl ih =>
    intro hok
    obtain ⟨s, trn⟩ := hd
    have htl : ∀ kv ∈ tl, ∀ exc, kv.2.action.check_constraints item ns ≠ .error exc :=
      fun kv hkv => hok kv (List.mem_cons_of_mem _ hkv)
    cases hc : trn.action.check_constraints item ns with
    | error exc => exact absurd hc (hok (s, trn) (List.mem_cons_self _ _) exc)
    | ok res =>
      cases res with
      | none => simp [availGo, checkPasses, hc, ih htl, Except.map]
      | some es => simp [availGo, checkPasses, hc, ih htl, Except.map]

/-- C7 (amended): over a construction sequence with at most one transition per
(origin, target) pair, `available` yields exactly the transitions under the
requested origin whose action constraints currently pass, in the order the
transitions were supplied; being a pure function of the workflow, entity and
context, repeated calls with no intervening mutation return the same
sequence. -/
theorem available_filters_passing_in_supply_order
    (ts : List Transition) (o : WorkflowState) (item : WFItem) (ns : WFNamespace)
    (hdist : (ts.filter fun trn => stateEq trn.origin o).Pairwise
        (fun t1 t2 => stateEq t1.target t2.target = false))
    (hok : ∀ trn ∈ ts, ∀ exc, trn.action.check_constraints item ns ≠ .error exc) :
    Transitions.available (buildEdges ts) o item ns =
      .ok ((ts.filter fun trn => stateEq trn.origin o).filter
        (fun trn => checkPasses trn.action item ns)) := by
  unfold Transitions.available buildEdges
  have hempty : ∀ kv ∈ (dget o ([] : Edges)).getD [],
      ∀ trn ∈ ts.filter fun trn => stateEq trn.origin o,
        stateEq kv.1 trn.target = false := by
    intro kv hkv
    exact absurd hkv (List.not_mem_nil kv)
  rw [inner_foldl o ts [] hdist hempty]
  have hok' : ∀ kv ∈ ((ts.filter fun trn => stateEq trn.origin o).map
      (fun trn => (trn.target, trn))),
      ∀ exc, kv.2.action.check_constraints item ns ≠ .error exc := by
    intro kv hkv exc
    obtain ⟨trn, htrn, rfl⟩ := List.mem_map.mp hkv
    exact hok trn (List.mem_of_mem_filter htrn) exc
  rw [show (dget o ([] : Edges)).getD [] = [] from rfl, List.nil_append,
    availGo_spec item ns _ hok', List.map_map,
    show (Prod.snd ∘ fun trn : Transition => (trn.target, trn)) = id from rfl,
    List.map_id]

/-- Realization of the spec's description of `available` for comparison: the
transitions indexed under the origin (those retained after last-wins
deduplication), in the order the transitions were supplied at construction,
keeping those whose constraints currently pass. -/
def retainedInOrder (o : WorkflowState) : List Transition → List Transition
  | [] => []
  | trn :: rest =>
    if stateEq trn.origin o &&
        !(rest.any fun u => stateEq u.origin trn.origin && stateEq u.target trn.target) then
      trn :: retainedInOrder o rest
    else retainedInOrder o rest

/-- Companion of `retainedInOrder`, stated from the spec's words for the C7
comparison: the claimed output of `available`. -/
def claimedAvailable (ts : List Transition) (o : WorkflowState) (item : WFItem)
    (ns : WFNamespace) : List Transition :=
  (retainedInOrder o ts).filter
    (fun trn => checkPasses trn.action item ns)

/-- Transition fixture draft → published labelled `a1`. -/
def tAB1 : Transition := ⟨⟨"a1", [], []⟩, stDraft, stPub⟩

/-- Transition fixture draft → submitted labelled `a2`. -/
def tAC2 : Transition := ⟨⟨"a2", [], []⟩, stDraft, stSub⟩

/-- Transition fixture draft → published labelled `a3`, duplicating the pair
of `tAB1`. -/
def tAB3 : Transition := ⟨⟨"a3", [], []⟩, stDraft, stPub⟩

/-- Construction sequence with a duplicate (draft, published) pair. -/
def cexTs : List Transition := [tAB1, tAC2, tAB3]

/-- Identifier of the action of the first yielded transition, used to tell the
two enumeration orders apart. -/
def headIdent : Except PyExc (List Transition) → String
  | .ok (trn :: _) => trn.action.identifier
  | _ => ""

/-- C7 counterexample: with a duplicate (origin, target) pair, the retained
(last-supplied) transition is iterated at the position of the pair's first
occurrence, not at its own supply position, so `available` disagrees with the
claimed supply order: it yields `a3` before `a2`, while the two retained
transitions were supplied in the order `a2`, `a3`. -/
theorem available_order_counterexample :
    Transitions.available (buildEdges cexTs) stDraft itm0 [] ≠
      Except.ok (claimedAvailable cexTs stDraft itm0 []) := by
  intro h
  have h3 : ("a3" : String) = "a2" := by
    have hc := congrArg headIdent h
    rwa [show headIdent (Transitions.available (buildEdges cexTs) stDraft itm0 []) =
        "a3" from rfl,
      show headIdent (Except.ok (claimedAvailable cexTs stDraft itm0 [])) =
        "a2" from rfl] at hc
  exact absurd h3 (by decide)

/-- Transition fixture draft → submitted guarded by a failing constraint. -/
def tFailSub : Transition := ⟨⟨"a4", [vFail1], []⟩, stDraft, stSub⟩

/-- Duplicate-free construction sequence for the C7 witness. -/
def wTs : List Transition := [tAB1, tFailSub]

/-- Witness for amended C7: over a duplicate-free sequence with one passing and
one failing transition out of draft, `available` yields exactly the passing
one. -/
theorem available_filters_passing_in_supply_order_witness :
    (wTs.filter fun trn => stateEq trn.origin stDraft).Pairwise
      (fun t1 t2 => stateEq t1.target t2.target = false) ∧
    (∀ trn ∈ wTs, ∀ exc,
      trn.action.check_constraints itm0 [] ≠ Except.error exc) ∧
    Transitions.available (buildEdges wTs) stDraft itm0 [] = .ok [tAB1] := by
  have hdist : (wTs.filter fun trn => stateEq trn.origin stDraft).Pairwise
      (fun t1 t2 => stateEq t1.target t2.target = false) := by
    rw [show (wTs.filter fun trn => stateEq trn.origin stDraft) = [tAB1, tFailSub] from rfl]
    refine List.pairwise_cons.mpr ⟨?_, List.pairwise_singleton _ _⟩
    intro u hu
    rw [List.mem_singleton.mp hu]
    rfl
  have hok : ∀ trn ∈ wTs, ∀ exc,
      trn.action.check_constraints itm0 [] ≠ Except.error exc := by
    intro trn ht exc hcontra
    rcases List.mem_cons.mp ht with rfl | ht
    · exact nomatch hcontra
    rcases List.mem_cons.mp ht with rfl | ht
    · exact nomatch hcontra
    · exact absurd ht (List.not_mem_nil trn)
  refine ⟨hdist, hok, ?_⟩
  rw [available_filters_passing_in_supply_order wTs stDraft itm0 [] hdist hok]
  rfl

end Graph
